import Mathlib

/-
Shallow embedding of the identity directory of the IPFS-Blockchain-db
repository (src/util/util.go).  The Go code keeps an in-memory content id
`cid` ("" when unset) pointing at the latest snapshot, a JSON-serialized
map from user id to user record, stored in IPFS.  We model:

  * the user record `User` with a Nat clock in place of time.Time;
  * the Go map `map[string]User` as an association list `Users`
    (`alookup` = map read, `aset` = `users[id] = u`, `aremove` = `delete`);
  * the IPFS blob store as an association list from content id to
    snapshot; `ipfs.Add` is modelled by an oracle field `saveCid`
    (`none` = the add fails, `some c` = it succeeds returning cid `c`);
  * bcrypt by an abstract `Crypto` capability (hash may fail, verify is
    a boolean check of a hash against a plaintext);
  * `uuid.New().String()` and `time.Now()` by oracle fields.

Every operation is state-passing: it returns its Go result together with
the manager state after the call (the Go methods mutate `im.cid` only
inside `saveUsers`, and only on success).
-/

/-- Mirror of the Go struct `User` (util.go): Password holds the bcrypt
hash, timestamps are modelled as Nat. -/
structure User where
  ID : String
  Username : String
  Password : String
  CreatedAt : Nat
  UpdatedAt : Nat
  deriving DecidableEq, Repr

/-- The Go `map[string]User`, as an association list whose order stands
for the (unspecified) Go map iteration order. -/
abbrev Users := List (String × User)

/-- Go map read `users[k]`: the first binding with key `k`. -/
def alookup : Users → String → Option User
  | [], _ => none
  | (k2, u) :: rest, k => if k2 == k then some u else alookup rest k

/-- Go map write `users[k] = v`: replace the binding of `k`, or append. -/
def aset : Users → String → User → Users
  | [], k, v => [(k, v)]
  | (k2, u) :: rest, k, v =>
      if k2 == k then (k, v) :: rest else (k2, u) :: aset rest k v

/-- Go `delete(users, k)`. -/
def aremove (us : Users) (k : String) : Users :=
  us.filter (fun p => !(p.1 == k))

/-- The error outcomes of util.go, one constructor per distinct failure. -/
inductive IdErr where
  /-- `failed to fetch data from IPFS` / read / unmarshal failures in loadUsers -/
  | loadFailed
  /-- `username already exists` -/
  | usernameExists
  /-- `failed to hash password` / `failed to hash new password` -/
  | hashFailed
  /-- `failed to add data to IPFS` (saveUsers) -/
  | saveFailed
  /-- `user not found` -/
  | userNotFound
  /-- `invalid password` -/
  | invalidPassword
  deriving DecidableEq, Repr

/-- The mutable fields of `IdentityManager` plus the blob store it talks
to: `cid` is the current pointer ("" = unset), `store` maps each content
id ever returned by `ipfs.Add` to the snapshot stored under it. -/
structure IMState where
  cid : String
  store : List (String × Users)
  deriving DecidableEq, Repr

/-- Content lookup in the modelled blob store (`ipfs.Cat`). -/
def blobGet : List (String × Users) → String → Option Users
  | [], _ => none
  | (c, us) :: rest, k => if c == k then some us else blobGet rest k

/-- A freshly constructed manager: no pointer, nothing stored yet. -/
def IMState.initial : IMState := { cid := "", store := [] }

/-- The bcrypt capability: `hashPw` is GenerateFromPassword (which may
fail), `verify h p` is `CompareHashAndPassword(h, p) == nil`. -/
structure Crypto where
  hashPw : String → Option String
  verify : String → String → Bool

/-- Per-call nondeterminism of one mutating operation: the uuid drawn,
the clock value, and the outcome of `ipfs.Add` (`none` = failure). -/
structure Oracle where
  newId : String
  now : Nat
  saveCid : Option String

/-- `loadUsers` (util.go): empty pointer means the empty map; otherwise
fetch the snapshot at the pointer, failing if it cannot be fetched. -/
def loadUsers (st : IMState) : Except IdErr Users :=
  if st.cid == "" then .ok []
  else
    match blobGet st.store st.cid with
    | some us => .ok us
    | none => .error .loadFailed

/-- `saveUsers` (util.go): add the serialized map to IPFS; on success the
new cid becomes the pointer, on failure the state is untouched. -/
def saveUsers (o : Oracle) (st : IMState) (us : Users) :
    Except IdErr Unit × IMState :=
  match o.saveCid with
  | none => (.error .saveFailed, st)
  | some c => (.ok (), { cid := c, store := (c, us) :: st.store })

/-- `AddUser` (util.go): load, scan for a case-sensitive username match,
hash, insert under a fresh id, save.  No emptiness validation exists in
the source. -/
def AddUser (cr : Crypto) (o : Oracle) (st : IMState)
    (username password : String) : Except IdErr String × IMState :=
  match loadUsers st with
  | .error e => (.error e, st)
  | .ok users =>
    if users.any (fun p => p.2.Username == username) then
      (.error .usernameExists, st)
    else
      match cr.hashPw password with
      | none => (.error .hashFailed, st)
      | some hashedPassword =>
        let id := o.newId
        let newUser : User :=
          { ID := id, Username := username, Password := hashedPassword,
            CreatedAt := o.now, UpdatedAt := o.now }
        match saveUsers o st (aset users id newUser) with
        | (.error e, st2) => (.error e, st2)
        | (.ok _, st2) => (.ok id, st2)

/-- `EditUser` (util.go): load, look the id up, overwrite username if the
new one is nonempty, re-hash and overwrite the password if the new one is
nonempty, stamp UpdatedAt, write back, save.  Uniqueness of the new
username is NOT re-checked. -/
def EditUser (cr : Crypto) (o : Oracle) (st : IMState)
    (id newUsername newPassword : String) : Except IdErr Unit × IMState :=
  match loadUsers st with
  | .error e => (.error e, st)
  | .ok users =>
    match alookup users id with
    | none => (.error .userNotFound, st)
    | some user0 =>
      let user1 :=
        if newUsername == "" then user0
        else { user0 with Username := newUsername }
      let hashed : Except IdErr User :=
        if newPassword == "" then .ok user1
        else
          match cr.hashPw newPassword with
          | none => .error .hashFailed
          | some hp => .ok { user1 with Password := hp }
      match hashed with
      | .error e => (.error e, st)
      | .ok user2 =>
        let user3 := { user2 with UpdatedAt := o.now }
        match saveUsers o st (aset users id user3) with
        | (.error e, st2) => (.error e, st2)
        | (.ok _, st2) => (.ok (), st2)

/-- `DeleteUser` (util.go): load, fail if the id is absent, delete the
entry, save. -/
def DeleteUser (o : Oracle) (st : IMState) (id : String) :
    Except IdErr Unit × IMState :=
  match loadUsers st with
  | .error e => (.error e, st)
  | .ok users =>
    match alookup users id with
    | none => (.error .userNotFound, st)
    | some _ =>
      match saveUsers o st (aremove users id) with
      | (.error e, st2) => (.error e, st2)
      | (.ok _, st2) => (.ok (), st2)

/-- The loop body of `Login` (util.go): scan in iteration order; on the
first username match, verify and return that id or fail with
invalidPassword — later records are never inspected. -/
def loginScan (cr : Crypto) : Users → String → String → Except IdErr String
  | [], _, _ => .error .userNotFound
  | (id, user) :: rest, username, password =>
    if user.Username == username then
      if cr.verify user.Password password then .ok id
      else .error .invalidPassword
    else loginScan cr rest username password

/-- `Login` (util.go): read-only, no state change. -/
def Login (cr : Crypto) (st : IMState) (username password : String) :
    Except IdErr String :=
  match loadUsers st with
  | .error e => .error e
  | .ok users => loginScan cr users username password

/-- The usernames of a snapshot, in iteration order. -/
def usernames (us : Users) : List String :=
  us.map (fun p => p.2.Username)

/-- Every key of the snapshot binds a record whose ID field equals it. -/
def idsMatch (us : Users) : Bool :=
  us.all (fun p => p.2.ID == p.1)

/-- A deterministic stand-in for bcrypt used in concrete runs: hashing
prepends a tag, verification re-hashes and compares. -/
def hashModel (p : String) : String := "bc$" ++ p

/-- Concrete crypto capability for closed computations. -/
def cryptoModel : Crypto :=
  { hashPw := fun p => some (hashModel p),
    verify := fun h p => h == hashModel p }

/-- The prefix of `AddUser` that runs before `saveUsers`: load, duplicate
check, hash, build the map to store.  In the Go code the read lock taken
inside `loadUsers` is released when `loadUsers` returns, and `saveUsers`
takes the write lock only around the assignment `im.cid = cid`; no lock
is held between the two, so two `AddUser` calls may both run this phase
against the same state before either one stores. -/
def addUserPrepare (cr : Crypto) (o : Oracle) (st : IMState)
    (username password : String) : Except IdErr (String × Users) :=
  match loadUsers st with
  | .error e => .error e
  | .ok users =>
    if users.any (fun p => p.2.Username == username) then
      .error .usernameExists
    else
      match cr.hashPw password with
      | none => .error .hashFailed
      | some hashedPassword =>
        .ok (o.newId, aset users o.newId
          { ID := o.newId, Username := username, Password := hashedPassword,
            CreatedAt := o.now, UpdatedAt := o.now })

/-- States reachable from a fresh manager by successful mutating calls. -/
inductive Reachable : IMState → Prop where
  | init : Reachable IMState.initial
  | add : ∀ cr o st u p id st', Reachable st →
      AddUser cr o st u p = (.ok id, st') → Reachable st'
  | edit : ∀ cr o st i nu np st', Reachable st →
      EditUser cr o st i nu np = (.ok (), st') → Reachable st'
  | del : ∀ o st i st', Reachable st →
      DeleteUser o st i = (.ok (), st') → Reachable st'

/-- States reachable by successful mutating calls in which no `EditUser`
call changes a username (its `newUsername` argument is empty). -/
inductive ReachableNoRename : IMState → Prop where
  | init : ReachableNoRename IMState.initial
  | add : ∀ cr o st u p id st', ReachableNoRename st →
      AddUser cr o st u p = (.ok id, st') → ReachableNoRename st'
  | edit : ∀ cr o st i np st', ReachableNoRename st →
      EditUser cr o st i "" np = (.ok (), st') → ReachableNoRename st'
  | del : ∀ o st i st', ReachableNoRename st →
      DeleteUser o st i = (.ok (), st') → ReachableNoRename st'

/-- Oracles for concrete runs. -/
def ora1 : Oracle := { newId := "u1", now := 1, saveCid := some "c1" }

def ora2 : Oracle := { newId := "u2", now := 2, saveCid := some "c2" }

def ora3 : Oracle := { newId := "u3", now := 3, saveCid := some "c3" }

/-- An oracle whose `ipfs.Add` call fails. -/
def oraFail : Oracle := { newId := "u9", now := 9, saveCid := none }

/-- Concrete record produced by AddUser("alice","p1") under `ora1`. -/
def recAliceP1 : User :=
  { ID := "u1", Username := "alice", Password := "bc$p1",
    CreatedAt := 1, UpdatedAt := 1 }

def usAlice : Users := [("u1", recAliceP1)]

def stAlice : IMState := { cid := "c1", store := [("c1", usAlice)] }

/-- Concrete record produced by AddUser("bob","p2") under `ora2`. -/
def recBob : User :=
  { ID := "u2", Username := "bob", Password := "bc$p2",
    CreatedAt := 2, UpdatedAt := 2 }

def usAliceBob : Users := [("u1", recAliceP1), ("u2", recBob)]

def stAliceBob : IMState :=
  { cid := "c2", store := [("c2", usAliceBob), ("c1", usAlice)] }

/-- Bob's record after EditUser("u2","alice","") under `ora3`: renamed to
alice, password hash untouched, UpdatedAt stamped. -/
def recRenamed : User :=
  { ID := "u2", Username := "alice", Password := "bc$p2",
    CreatedAt := 2, UpdatedAt := 3 }

/-- The snapshot holding two records that both carry username alice. -/
def usDup : Users := [("u1", recAliceP1), ("u2", recRenamed)]

def stRenamed : IMState :=
  { cid := "c3",
    store := [("c3", usDup), ("c2", usAliceBob), ("c1", usAlice)] }

/-- Concrete record produced by AddUser("alice","secret") under `ora1`. -/
def recSecret : User :=
  { ID := "u1", Username := "alice", Password := "bc$secret",
    CreatedAt := 1, UpdatedAt := 1 }

def stSecret : IMState :=
  { cid := "c1", store := [("c1", [("u1", recSecret)])] }

/-- The record EditUser writes back when only the username changes: same
ID, CreatedAt and Password, the new Username, UpdatedAt stamped with the
call's clock. -/
def renameStamp (u : User) (nu : String) (t : Nat) : User :=
  { u with Username := nu, UpdatedAt := t }

/-- State after DeleteUser("u1") on `stAlice` under `ora2`: the stored
snapshot is the empty mapping. -/
def stDel : IMState :=
  { cid := "c2", store := [("c2", []), ("c1", usAlice)] }

/-- Oracles for the interleaved AddUser race of two callers A and B. -/
def oraA : Oracle := { newId := "uA", now := 1, saveCid := some "cA" }

def oraB : Oracle := { newId := "uB", now := 1, saveCid := some "cB" }

/-- Snapshot built by caller A preparing AddUser("alice","pA") from the
fresh manager. -/
def vsA : Users :=
  [("uA", { ID := "uA", Username := "alice", Password := "bc$pA",
            CreatedAt := 1, UpdatedAt := 1 })]

/-- Snapshot built by caller B preparing AddUser("alice","pB") from the
same fresh manager, before A's store lands. -/
def vsB : Users :=
  [("uB", { ID := "uB", Username := "alice", Password := "bc$pB",
            CreatedAt := 1, UpdatedAt := 1 })]

def stA : IMState := { cid := "cA", store := [("cA", vsA)] }

def stB : IMState := { cid := "cB", store := [("cB", vsB), ("cA", vsA)] }

/-- Writing key `k` and reading it back yields the written record. -/
theorem alookup_aset_self (us : Users) (k : String) (v : User) :
    alookup (aset us k v) k = some v := by
  induction us with
  | nil => simp [aset, alookup]
  | cons p rest ih =>
    obtain ⟨k2, u⟩ := p
    by_cases h : k2 = k
    · simp [aset, alookup, h]
    · simp [aset, alookup, h, ih]

/-- Writing key `k` leaves reads of any other key unchanged. -/
theorem alookup_aset_ne (us : Users) (k k2 : String) (v : User)
    (h : k2 ≠ k) : alookup (aset us k v) k2 = alookup us k2 := by
  induction us with
  | nil => simp [aset, alookup, Ne.symm h]
  | cons p rest ih =>
    obtain ⟨k3, u⟩ := p
    by_cases h3 : k3 = k
    · subst h3
      simp [aset, alookup, Ne.symm h]
    · simp [aset, alookup, h3, ih]

/-- Members of the written map are the written pair or old members. -/
theorem mem_aset (us : Users) (k : String) (v : User) (q : String × User)
    (h : q ∈ aset us k v) : q = (k, v) ∨ q ∈ us := by
  induction us with
  | nil => simpa [aset] using h
  | cons p rest ih =>
    obtain ⟨k2, u⟩ := p
    by_cases h2 : k2 = k
    · simp only [aset, h2, beq_self_eq_true, if_true, List.mem_cons] at h
      rcases h with h | h
      · exact .inl h
      · exact .inr (List.mem_cons_of_mem _ h)
    · have hb : (k2 == k) = false := by simp [h2]
      simp only [aset, hb, Bool.false_eq_true, if_false, List.mem_cons] at h
      rcases h with h | h
      · exact .inr (by simp [h])
      · rcases ih h with h | h
        · exact .inl h
        · exact .inr (List.mem_cons_of_mem _ h)

/-- Deleted key reads back as absent. -/
theorem alookup_aremove_self (us : Users) (k : String) :
    alookup (aremove us k) k = none := by
  induction us with
  | nil => simp [aremove, alookup]
  | cons p rest ih =>
    obtain ⟨k2, u⟩ := p
    by_cases h : k2 = k
    · simpa [aremove, h] using ih
    · simpa [aremove, alookup, h] using ih

/-- Deleting key `k` leaves reads of any other key unchanged. -/
theorem alookup_aremove_ne (us : Users) (k k2 : String)
    (h : k2 ≠ k) : alookup (aremove us k) k2 = alookup us k2 := by
  induction us with
  | nil => simp [aremove, alookup]
  | cons p rest ih =>
    obtain ⟨k3, u⟩ := p
    by_cases h3 : k3 = k
    · subst h3
      simpa [aremove, alookup, Ne.symm h] using ih
    · by_cases h32 : k3 = k2
      · subst h32
        simp [aremove, alookup, h3]
      · simpa [aremove, alookup, h3, h32] using ih

/-- A username present after a write is the written one or an old one. -/
theorem usernames_aset_mem (us : Users) (k : String) (v : User) (s : String)
    (h : s ∈ usernames (aset us k v)) : s = v.Username ∨ s ∈ usernames us := by
  simp only [usernames, List.mem_map] at h
  obtain ⟨q, hq, rfl⟩ := h
  rcases mem_aset us k v q hq with h | h
  · subst h
    exact .inl rfl
  · exact .inr (by simp only [usernames, List.mem_map]; exact ⟨q, h, rfl⟩)

/-- Writing a record whose username clashes with no existing record
preserves distinctness of usernames. -/
theorem usernames_aset_nodup (us : Users) (k : String) (v : User)
    (hfresh : ∀ q ∈ us, q.2.Username ≠ v.Username)
    (hnd : (usernames us).Nodup) : (usernames (aset us k v)).Nodup := by
  induction us with
  | nil => simp [aset, usernames]
  | cons p rest ih =>
    obtain ⟨k2, u⟩ := p
    have hndrest : (usernames rest).Nodup := (List.nodup_cons.mp hnd).2
    have hu_notin : u.Username ∉ usernames rest := (List.nodup_cons.mp hnd).1
    by_cases h2 : k2 = k
    · subst h2
      simp only [aset, beq_self_eq_true, if_true, usernames, List.map_cons]
      refine List.nodup_cons.mpr ⟨?_, hndrest⟩
      intro hmem
      simp only [usernames, List.mem_map] at hmem
      obtain ⟨q, hq, hqe⟩ := hmem
      exact hfresh q (List.mem_cons_of_mem _ hq) hqe
    · have hb : (k2 == k) = false := by simp [h2]
      simp only [aset, hb, Bool.false_eq_true, if_false, usernames,
        List.map_cons]
      refine List.nodup_cons.mpr ⟨?_, ?_⟩
      · intro hmem
        rcases usernames_aset_mem rest k v u.Username hmem with h | h
        · exact hfresh (k2, u) (List.mem_cons_self _ _) h
        · exact hu_notin h
      · exact ih (fun q hq => hfresh q (List.mem_cons_of_mem _ hq)) hndrest

/-- Overwriting a key with a record carrying the same username leaves the
username list unchanged. -/
theorem usernames_aset_same (us : Users) (k : String) (u0 v : User)
    (hfind : alookup us k = some u0) (hsame : v.Username = u0.Username) :
    usernames (aset us k v) = usernames us := by
  induction us with
  | nil => simp [alookup] at hfind
  | cons p rest ih =>
    obtain ⟨k2, u⟩ := p
    by_cases h2 : k2 = k
    · subst h2
      simp only [alookup, beq_self_eq_true, if_true, Option.some.injEq]
        at hfind
      subst hfind
      simp [aset, usernames, hsame]
    · have hb : (k2 == k) = false := by simp [h2]
      simp only [alookup, hb, Bool.false_eq_true, if_false] at hfind
      have hrec := ih hfind
      simp only [usernames] at hrec
      simp [aset, hb, usernames, hrec]

/-- Deleting a key can only shrink the username list, so distinctness is
preserved. -/
theorem usernames_aremove_nodup (us : Users) (k : String)
    (hnd : (usernames us).Nodup) : (usernames (aremove us k)).Nodup := by
  have hsub : List.Sublist (usernames (aremove us k)) (usernames us) :=
    List.Sublist.map _ (List.filter_sublist us)
  exact hnd.sublist hsub

/-- Writing a record whose ID equals its key preserves key-ID agreement. -/
theorem idsMatch_aset (us : Users) (k : String) (v : User)
    (hm : idsMatch us = true) (hv : v.ID = k) :
    idsMatch (aset us k v) = true := by
  simp only [idsMatch, List.all_eq_true] at hm ⊢
  intro q hq
  rcases mem_aset us k v q hq with h | h
  · subst h
    simp [hv]
  · exact hm q h

/-- Deleting preserves key-ID agreement. -/
theorem idsMatch_aremove (us : Users) (k : String)
    (hm : idsMatch us = true) : idsMatch (aremove us k) = true := by
  simp only [idsMatch, List.all_eq_true] at hm ⊢
  intro q hq
  exact hm q (List.mem_of_mem_filter hq)

/-- Under key-ID agreement, a found record's ID is the key it was found
under. -/
theorem idsMatch_alookup (us : Users) (k : String) (u : User)
    (hm : idsMatch us = true) (hfind : alookup us k = some u) : u.ID = k := by
  induction us with
  | nil => simp [alookup] at hfind
  | cons p rest ih =>
    obtain ⟨k2, u2⟩ := p
    simp only [idsMatch, List.all_cons, Bool.and_eq_true] at hm
    by_cases h2 : k2 = k
    · subst h2
      simp only [alookup, beq_self_eq_true, if_true, Option.some.injEq]
        at hfind
      subst hfind
      simpa using hm.1
    · have hb : (k2 == k) = false := by simp [h2]
      simp only [alookup, hb, Bool.false_eq_true, if_false] at hfind
      exact ih hm.2 hfind

/-- A snapshot loaded right after a successful store is the stored map,
unless the store handed back the empty content id (which the Go code
would then read as an unset pointer). -/
theorem loadUsers_after_store (c : String) (vs : Users)
    (s : List (String × Users)) (ws : Users)
    (h : loadUsers { cid := c, store := (c, vs) :: s } = .ok ws) :
    ws = [] ∨ ws = vs := by
  by_cases hc : c = ""
  · subst hc
    simp only [loadUsers, beq_self_eq_true, if_true, Except.ok.injEq] at h
    exact .inl h.symm
  · have hb : (c == "") = false := by simp [hc]
    simp only [loadUsers, hb, Bool.false_eq_true, if_false, blobGet,
      beq_self_eq_true, if_true, Except.ok.injEq] at h
    exact .inr h.symm

/-- With a nonempty content id, the snapshot loaded after a store is
exactly the stored map. -/
theorem loadUsers_after_store_ne (c : String) (vs : Users)
    (s : List (String × Users)) (hc : c ≠ "") :
    loadUsers { cid := c, store := (c, vs) :: s } = .ok vs := by
  have hb : (c == "") = false := by simp [hc]
  simp [loadUsers, hb, blobGet]

/-- Anatomy of a successful AddUser: the load succeeded, the duplicate
scan found nothing, hashing succeeded, the store succeeded, the returned
id is the drawn uuid, and the new state points at the stored map. -/
theorem AddUser_ok (cr : Crypto) (o : Oracle) (st : IMState) (u p id : String)
    (st' : IMState) (h : AddUser cr o st u p = (.ok id, st')) :
    ∃ users hp c, loadUsers st = .ok users ∧
      users.any (fun q => q.2.Username == u) = false ∧
      cr.hashPw p = some hp ∧ id = o.newId ∧ o.saveCid = some c ∧
      st' = { cid := c,
              store := (c, aset users o.newId
                { ID := o.newId, Username := u, Password := hp,
                  CreatedAt := o.now, UpdatedAt := o.now }) :: st.store } := by
  cases hl : loadUsers st with
  | error e => simp [AddUser, hl] at h
  | ok users =>
    simp only [AddUser, hl] at h
    by_cases hany : users.any (fun q => q.2.Username == u) = true
    · simp [hany] at h
    · have hany2 : users.any (fun q => q.2.Username == u) = false :=
        Bool.eq_false_iff.mpr hany
      simp only [hany2, Bool.false_eq_true, if_false] at h
      cases hh : cr.hashPw p with
      | none => simp [hh] at h
      | some hp =>
        simp only [hh] at h
        cases hs : o.saveCid with
        | none => simp [saveUsers, hs] at h
        | some c =>
          simp only [saveUsers, hs, Prod.mk.injEq, Except.ok.injEq] at h
          exact ⟨users, hp, c, rfl, hany2, rfl, h.1.symm, rfl, h.2.symm⟩

/-- Anatomy of a successful EditUser: the load succeeded, the id was
found, and the state now points at the map with the edited record written
back; the edited record keeps the old ID and CreatedAt, carries the new
username exactly when one was supplied, keeps the old password hash when
no new password was supplied, and is stamped with the call's clock. -/
theorem EditUser_ok (cr : Crypto) (o : Oracle) (st : IMState)
    (i nu np : String) (st' : IMState)
    (h : EditUser cr o st i nu np = (.ok (), st')) :
    ∃ users user0 user3 c, loadUsers st = .ok users ∧
      alookup users i = some user0 ∧
      user3.ID = user0.ID ∧ user3.CreatedAt = user0.CreatedAt ∧
      user3.UpdatedAt = o.now ∧
      user3.Username = (if nu = "" then user0.Username else nu) ∧
      (np = "" → user3.Password = user0.Password) ∧
      o.saveCid = some c ∧
      st' = { cid := c, store := (c, aset users i user3) :: st.store } := by
  cases hl : loadUsers st with
  | error e => simp [EditUser, hl] at h
  | ok users =>
    simp only [EditUser, hl] at h
    cases hf : alookup users i with
    | none => simp [hf] at h
    | some user0 =>
      simp only [hf] at h
      by_cases hnu : nu = ""
      · by_cases hnp : np = ""
        · simp only [hnu, hnp, beq_self_eq_true, if_true] at h
          cases hs : o.saveCid with
          | none => simp [saveUsers, hs] at h
          | some c =>
            simp only [saveUsers, hs, Prod.mk.injEq] at h
            refine ⟨users, user0, ({ user0 with UpdatedAt := o.now } : User),
              c, rfl, hf, rfl, rfl, rfl, by simp [hnu], fun _ => rfl, rfl, ?_⟩
            exact h.2.symm
        · have hb : (np == "") = false := by simp [hnp]
          simp only [hnu, beq_self_eq_true, if_true, hb, Bool.false_eq_true,
            if_false] at h
          cases hh : cr.hashPw np with
          | none => simp [hh] at h
          | some hp =>
            simp only [hh] at h
            cases hs : o.saveCid with
            | none => simp [saveUsers, hs] at h
            | some c =>
              simp only [saveUsers, hs, Prod.mk.injEq] at h
              refine ⟨users, user0,
                ({ user0 with Password := hp, UpdatedAt := o.now } : User),
                c, rfl, hf, rfl, rfl, rfl, by simp [hnu],
                fun hc => absurd hc hnp, rfl, ?_⟩
              exact h.2.symm
      · have hbu : (nu == "") = false := by simp [hnu]
        by_cases hnp : np = ""
        · simp only [hbu, Bool.false_eq_true, if_false, hnp,
            beq_self_eq_true, if_true] at h
          cases hs : o.saveCid with
          | none => simp [saveUsers, hs] at h
          | some c =>
            simp only [saveUsers, hs, Prod.mk.injEq] at h
            refine ⟨users, user0,
              ({ user0 with Username := nu, UpdatedAt := o.now } : User),
              c, rfl, hf, rfl, rfl, rfl, by simp [hnu], fun _ => rfl, rfl, ?_⟩
            exact h.2.symm
        · have hb : (np == "") = false := by simp [hnp]
          simp only [hbu, hb, Bool.false_eq_true, if_false] at h
          cases hh : cr.hashPw np with
          | none => simp [hh] at h
          | some hp =>
            simp only [hh] at h
            cases hs : o.saveCid with
            | none => simp [saveUsers, hs] at h
            | some c =>
              simp only [saveUsers, hs, Prod.mk.injEq] at h
              refine ⟨users, user0,
                ({ user0 with Username := nu, Password := hp, UpdatedAt := o.now } : User),
                c, rfl, hf, rfl, rfl, rfl, by simp [hnu],
                fun hc => absurd hc hnp, rfl, ?_⟩
              exact h.2.symm

/-- Anatomy of a successful DeleteUser: load succeeded, the id was found,
and the state now points at the map with the entry removed. -/
theorem DeleteUser_ok (o : Oracle) (st : IMState) (i : String)
    (st' : IMState) (h : DeleteUser o st i = (.ok (), st')) :
    ∃ users user0 c, loadUsers st = .ok users ∧
      alookup users i = some user0 ∧ o.saveCid = some c ∧
      st' = { cid := c, store := (c, aremove users i) :: st.store } := by
  cases hl : loadUsers st with
  | error e => simp [DeleteUser, hl] at h
  | ok users =>
    simp only [DeleteUser, hl] at h
    cases hf : alookup users i with
    | none => simp [hf] at h
    | some user0 =>
      simp only [hf] at h
      cases hs : o.saveCid with
      | none => simp [saveUsers, hs] at h
      | some c =>
        simp only [saveUsers, hs, Prod.mk.injEq] at h
        exact ⟨users, user0, c, rfl, hf, rfl, h.2.symm⟩

/-- C2: for every mapping that already contains a record whose username
equals the argument (case-sensitive), AddUser fails with the
duplicate-username error, performs no store, and leaves the snapshot and
pointer (the whole manager state) unchanged. -/
theorem C2_duplicate_username_rejected (cr : Crypto) (o : Oracle)
    (st : IMState) (username password : String) (us : Users)
    (hload : loadUsers st = .ok us)
    (hdup : ∃ q ∈ us, q.2.Username = username) :
    AddUser cr o st username password = (.error .usernameExists, st) := by
  have hany : us.any (fun q => q.2.Username == username) = true := by
    obtain ⟨q, hq, he⟩ := hdup
    exact List.any_eq_true.mpr ⟨q, hq, by simp [he]⟩
  simp [AddUser, hload, hany]

/-- Witness for C2: adding a second alice over `stAlice` is rejected and
the state is untouched. -/
theorem C2_witness :
    AddUser cryptoModel ora2 stAlice "alice" "x" =
      (.error .usernameExists, stAlice) :=
  C2_duplicate_username_rejected cryptoModel ora2 stAlice "alice" "x"
    usAlice rfl ⟨("u1", recAliceP1), by decide, rfl⟩

/-- C5: atomicity on failure — whenever AddUser, EditUser, or DeleteUser
returns an error (load failure, duplicate, hash failure, not-found, or
store failure), the manager state after the call is exactly the state
before it, so the pointer and the observable record set are unchanged. -/
theorem C5_failed_mutation_keeps_state (cr : Crypto) (o : Oracle)
    (st : IMState) (u p i nu np : String) :
    (∀ e, (AddUser cr o st u p).1 = .error e →
      (AddUser cr o st u p).2 = st) ∧
    (∀ e, (EditUser cr o st i nu np).1 = .error e →
      (EditUser cr o st i nu np).2 = st) ∧
    (∀ e, (DeleteUser o st i).1 = .error e →
      (DeleteUser o st i).2 = st) := by
  refine ⟨?_, ?_, ?_⟩ <;> intro e h
  · cases hl : loadUsers st with
    | error e2 => simp [AddUser, hl]
    | ok users =>
      by_cases hany : users.any (fun q => q.2.Username == u) = true
      · simp [AddUser, hl, hany]
      · have hany2 := Bool.eq_false_iff.mpr hany
        cases hh : cr.hashPw p with
        | none => simp [AddUser, hl, hany2, hh]
        | some hp =>
          cases hs : o.saveCid with
          | none => simp [AddUser, hl, hany2, hh, saveUsers, hs]
          | some c => simp [AddUser, hl, hany2, hh, saveUsers, hs] at h
  · cases hl : loadUsers st with
    | error e2 => simp [EditUser, hl]
    | ok users =>
      cases hf : alookup users i with
      | none => simp [EditUser, hl, hf]
      | some user0 =>
        by_cases hnp : np = ""
        · cases hs : o.saveCid with
          | none => simp [EditUser, hl, hf, hnp, saveUsers, hs]
          | some c => simp [EditUser, hl, hf, hnp, saveUsers, hs] at h
        · have hb : (np == "") = false := by simp [hnp]
          cases hh : cr.hashPw np with
          | none => simp [EditUser, hl, hf, hb, hh]
          | some hp =>
            cases hs : o.saveCid with
            | none => simp [EditUser, hl, hf, hb, hh, saveUsers, hs]
            | some c => simp [EditUser, hl, hf, hb, hh, saveUsers, hs] at h
  · cases hl : loadUsers st with
    | error e2 => simp [DeleteUser, hl]
    | ok users =>
      cases hf : alookup users i with
      | none => simp [DeleteUser, hl, hf]
      | some user0 =>
        cases hs : o.saveCid with
        | none => simp [DeleteUser, hl, hf, saveUsers, hs]
        | some c => simp [DeleteUser, hl, hf, saveUsers, hs] at h

/-- Witness for C5: a duplicate AddUser, a not-found EditUser, and a
DeleteUser whose store write fails, each leaving the state untouched. -/
theorem C5_witness :
    (AddUser cryptoModel ora2 stAlice "alice" "x").2 = stAlice ∧
    (EditUser cryptoModel ora2 stAlice "nobody" "a" "b").2 = stAlice ∧
    (DeleteUser oraFail stAlice "u1").2 = stAlice :=
  ⟨(C5_failed_mutation_keeps_state cryptoModel ora2 stAlice "alice" "x"
      "nobody" "a" "b").1 .usernameExists rfl,
   (C5_failed_mutation_keeps_state cryptoModel ora2 stAlice "alice" "x"
      "nobody" "a" "b").2.1 .userNotFound rfl,
   (C5_failed_mutation_keeps_state cryptoModel oraFail stAlice "alice" "x"
      "u1" "a" "b").2.2 .saveFailed rfl⟩

/-- C1 is false as stated: the snapshot `stRenamed` is reachable from the
fresh manager by three successful operations — AddUser("alice","p1"),
AddUser("bob","p2"), and EditUser("u2","alice","") — yet its two records
both carry username "alice", because EditUser never re-validates
uniqueness when renaming. -/
theorem C1_counterexample :
    AddUser cryptoModel ora1 IMState.initial "alice" "p1" =
      (.ok "u1", stAlice) ∧
    AddUser cryptoModel ora2 stAlice "bob" "p2" = (.ok "u2", stAliceBob) ∧
    EditUser cryptoModel ora3 stAliceBob "u2" "alice" "" =
      (.ok (), stRenamed) ∧
    loadUsers stRenamed = .ok usDup ∧
    usernames usDup = ["alice", "alice"] ∧
    ¬ (usernames usDup).Nodup :=
  ⟨rfl, rfl, rfl, rfl, rfl, by decide⟩

/-- C1 (amended): username uniqueness is an invariant of every snapshot
reachable from the empty mapping by successful AddUser and DeleteUser
calls and by EditUser calls whose newUsername argument is empty; EditUser
calls that rename a record are excluded, since such a rename can
duplicate a username. -/
theorem C1_uniqueness_invariant (st : IMState) (hr : ReachableNoRename st) :
    ∀ us, loadUsers st = .ok us → (usernames us).Nodup := by
  induction hr with
  | init =>
    intro us h
    simp only [loadUsers, IMState.initial, beq_self_eq_true, if_true,
      Except.ok.injEq] at h
    subst h
    simp [usernames]
  | add cr o st u p id st' hst hadd ih =>
    intro ws hws
    obtain ⟨users, hp, c, hl, hany, hh, hid, hs, hst'⟩ :=
      AddUser_ok cr o st u p id st' hadd
    subst hst'
    rcases loadUsers_after_store c _ _ ws hws with rfl | rfl
    · simp [usernames]
    · refine usernames_aset_nodup users o.newId _ ?_ (ih users hl)
      intro q hq hqe
      have hq2 : users.any (fun r => r.2.Username == u) = true :=
        List.any_eq_true.mpr ⟨q, hq, by simp only [hqe]; exact beq_self_eq_true u⟩
      rw [hq2] at hany
      exact Bool.true_eq_false.mp hany
  | edit cr o st i np st' hst hedit ih =>
    intro ws hws
    obtain ⟨users, user0, user3, c, hl, hf, _, _, _, hun, _, hs, hst'⟩ :=
      EditUser_ok cr o st i "" np st' hedit
    subst hst'
    rcases loadUsers_after_store c _ _ ws hws with rfl | rfl
    · simp [usernames]
    · rw [usernames_aset_same users i user0 user3 hf (by simpa using hun)]
      exact ih users hl
  | del o st i st' hst hdel ih =>
    intro ws hws
    obtain ⟨users, user0, c, hl, hf, hs, hst'⟩ :=
      DeleteUser_ok o st i st' hdel
    subst hst'
    rcases loadUsers_after_store c _ _ ws hws with rfl | rfl
    · simp [usernames]
    · exact usernames_aremove_nodup users i (ih users hl)

/-- Witness for the amended C1 at the two-user state reached by two
successful AddUser calls. -/
theorem C1_witness : (usernames usAliceBob).Nodup :=
  C1_uniqueness_invariant stAliceBob
    (ReachableNoRename.add cryptoModel ora2 stAlice "bob" "p2" "u2"
      stAliceBob
      (ReachableNoRename.add cryptoModel ora1 IMState.initial "alice" "p1"
        "u1" stAlice ReachableNoRename.init rfl) rfl)
    usAliceBob rfl

/-- C10: key-record consistency — in every snapshot reachable by
successful AddUser, EditUser, and DeleteUser calls, every key binds a
record whose ID field equals that key; and a successful AddUser returns
the drawn uuid, which is exactly the key under which the new record (whose
ID field is that same id) was inserted into the stored mapping. -/
theorem C10_key_record_consistency :
    (∀ st, Reachable st → ∀ us, loadUsers st = .ok us →
      idsMatch us = true) ∧
    (∀ cr o st u p hp id st' us, loadUsers st = .ok us →
      cr.hashPw p = some hp → AddUser cr o st u p = (.ok id, st') →
      id = o.newId ∧
      st'.store = (st'.cid, aset us id
        { ID := id, Username := u, Password := hp,
          CreatedAt := o.now, UpdatedAt := o.now }) :: st.store ∧
      alookup (aset us id
        { ID := id, Username := u, Password := hp,
          CreatedAt := o.now, UpdatedAt := o.now }) id =
        some { ID := id, Username := u, Password := hp,
               CreatedAt := o.now, UpdatedAt := o.now } ∧
      User.ID { ID := id, Username := u, Password := hp,
                CreatedAt := o.now, UpdatedAt := o.now } = id) := by
  constructor
  · intro st hr
    induction hr with
    | init =>
      intro us h
      simp only [loadUsers, IMState.initial, beq_self_eq_true, if_true,
        Except.ok.injEq] at h
      subst h
      simp [idsMatch]
    | add cr o st u p id st' hst hadd ih =>
      intro ws hws
      obtain ⟨users, hp, c, hl, hany, hh, hid, hs, hst'⟩ :=
        AddUser_ok cr o st u p id st' hadd
      subst hst'
      rcases loadUsers_after_store c _ _ ws hws with rfl | rfl
      · simp [idsMatch]
      · exact idsMatch_aset users o.newId _ (ih users hl) rfl
    | edit cr o st i nu np st' hst hedit ih =>
      intro ws hws
      obtain ⟨users, user0, user3, c, hl, hf, hID, _, _, _, _, hs, hst'⟩ :=
        EditUser_ok cr o st i nu np st' hedit
      subst hst'
      rcases loadUsers_after_store c _ _ ws hws with rfl | rfl
      · simp [idsMatch]
      · have h0 : user0.ID = i :=
          idsMatch_alookup users i user0 (ih users hl) hf
        exact idsMatch_aset users i user3 (ih users hl) (hID.trans h0)
    | del o st i st' hst hdel ih =>
      intro ws hws
      obtain ⟨users, user0, c, hl, hf, hs, hst'⟩ :=
        DeleteUser_ok o st i st' hdel
      subst hst'
      rcases loadUsers_after_store c _ _ ws hws with rfl | rfl
      · simp [idsMatch]
      · exact idsMatch_aremove users i (ih users hl)
  · intro cr o st u p hp id st' us hl hh hadd
    obtain ⟨users, hp2, c, hl2, hany, hh2, hid, hs, hst'⟩ :=
      AddUser_ok cr o st u p id st' hadd
    rw [hl] at hl2
    injection hl2 with he
    subst he
    rw [hh] at hh2
    injection hh2 with hpe
    subst hpe
    subst hid
    subst hst'
    exact ⟨rfl, rfl, alookup_aset_self _ _ _, rfl⟩

/-- Witness for C10: the invariant at `stAlice`, and the concrete insert
of alice's record under the returned id "u1". -/
theorem C10_witness :
    idsMatch usAlice = true ∧
    alookup (aset [] "u1" recAliceP1) "u1" = some recAliceP1 := by
  constructor
  · exact C10_key_record_consistency.1 stAlice
      (Reachable.add cryptoModel ora1 IMState.initial "alice" "p1" "u1"
        stAlice Reachable.init rfl) usAlice rfl
  · exact (C10_key_record_consistency.2 cryptoModel ora1 IMState.initial
      "alice" "p1" "bc$p1" "u1" stAlice [] rfl rfl rfl).2.2.1

/-- A scan over a snapshot none of whose records carries the username
reports that the user was not found. -/
theorem loginScan_no_match (cr : Crypto) (us : Users) (username pw : String)
    (h : ∀ q ∈ us, q.2.Username ≠ username) :
    loginScan cr us username pw = .error .userNotFound := by
  induction us with
  | nil => rfl
  | cons p rest ih =>
    obtain ⟨id, u⟩ := p
    have hne : u.Username ≠ username := h (id, u) (List.mem_cons_self _ _)
    have hb : (u.Username == username) = false := by simp [hne]
    simp only [loginScan, hb, Bool.false_eq_true, if_false]
    exact ih (fun q hq => h q (List.mem_cons_of_mem _ hq))

/-- Scanning after writing the only record that carries the username
reaches it and resolves by its verifier alone. -/
theorem loginScan_aset_fresh (cr : Crypto) (us : Users) (k : String)
    (v : User) (username pw : String)
    (hnm : ∀ q ∈ us, q.2.Username ≠ username)
    (hm : v.Username = username) :
    loginScan cr (aset us k v) username pw =
      if cr.verify v.Password pw then .ok k
      else .error .invalidPassword := by
  induction us with
  | nil => simp [aset, loginScan, hm]
  | cons p rest ih =>
    obtain ⟨k2, u⟩ := p
    by_cases h2 : k2 = k
    · subst h2
      simp [aset, loginScan, hm]
    · have hb : (k2 == k) = false := by simp [h2]
      have hne : u.Username ≠ username := hnm (k2, u) (List.mem_cons_self _ _)
      have hbu : (u.Username == username) = false := by simp [hne]
      simp only [aset, hb, Bool.false_eq_true, if_false, loginScan, hbu]
      exact ih (fun q hq => hnm q (List.mem_cons_of_mem _ hq))

/-- C4: round-trip of AddUser and Login — starting from a snapshot with no
record named alice or bob, after a successful AddUser("alice","secret")
returning id, Login("alice","secret") returns that id,
Login("alice","wrong") fails with the invalid-credential error, and
Login("bob", pw) fails with the not-found error for every pw. -/
theorem C4_add_login_roundtrip (cr : Crypto) (o : Oracle) (st st' : IMState)
    (us : Users) (hv id : String)
    (hload : loadUsers st = .ok us)
    (hfresh : ∀ q ∈ us, q.2.Username ≠ "alice" ∧ q.2.Username ≠ "bob")
    (hhash : cr.hashPw "secret" = some hv)
    (hok : cr.verify hv "secret" = true)
    (hbad : cr.verify hv "wrong" = false)
    (hadd : AddUser cr o st "alice" "secret" = (.ok id, st'))
    (hcne : st'.cid ≠ "") :
    Login cr st' "alice" "secret" = .ok id ∧
    Login cr st' "alice" "wrong" = .error .invalidPassword ∧
    ∀ pw, Login cr st' "bob" pw = .error .userNotFound := by
  obtain ⟨users, hp, c, hl, hany, hh2, hid, hs, hst'⟩ :=
    AddUser_ok cr o st "alice" "secret" id st' hadd
  rw [hload] at hl
  injection hl with he
  subst he
  rw [hhash] at hh2
  injection hh2 with hpe
  subst hpe
  subst hid
  subst hst'
  have hc : c ≠ "" := by simpa using hcne
  have hload2 := loadUsers_after_store_ne c
    (aset us o.newId
      { ID := o.newId, Username := "alice", Password := hv,
        CreatedAt := o.now, UpdatedAt := o.now }) st.store hc
  have hfa : ∀ q ∈ us, q.2.Username ≠ "alice" := fun q hq => (hfresh q hq).1
  have hsc := loginScan_aset_fresh cr us o.newId
    { ID := o.newId, Username := "alice", Password := hv,
      CreatedAt := o.now, UpdatedAt := o.now } "alice"
  refine ⟨?_, ?_, ?_⟩
  · simp only [Login, hload2]
    rw [hsc "secret" hfa rfl, hok]
    simp
  · simp only [Login, hload2]
    rw [hsc "wrong" hfa rfl, hbad]
    simp
  · intro pw
    simp only [Login, hload2]
    refine loginScan_no_match cr _ "bob" pw ?_
    intro q hq
    rcases mem_aset us o.newId _ q hq with hq2 | hq2
    · subst hq2
      simp
    · exact (hfresh q hq2).2

/-- Witness for C4 at the concrete state reached by
AddUser("alice","secret") on a fresh manager. -/
theorem C4_witness :
    Login cryptoModel stSecret "alice" "secret" = .ok "u1" ∧
    Login cryptoModel stSecret "alice" "wrong" = .error .invalidPassword ∧
    Login cryptoModel stSecret "bob" "zz" = .error .userNotFound := by
  have h := C4_add_login_roundtrip cryptoModel ora1 IMState.initial stSecret
    [] "bc$secret" "u1" rfl (by simp) rfl (by decide) (by decide) rfl
    (by decide)
  exact ⟨h.1, h.2.1, h.2.2 "zz"⟩

/-- C6: for a snapshot containing a record at the given id, a successful
EditUser(id, newUsername, "") with nonempty newUsername replaces only that
record's username — the ID and CreatedAt fields are unchanged, the
password hash (and hence what the verifier accepts) is unchanged, every
other record is untouched — and UpdatedAt becomes the call's clock, which
is strictly greater than CreatedAt whenever the edit happens strictly
after creation. -/
theorem C6_edit_username_frame (cr : Crypto) (o : Oracle) (st : IMState)
    (i nu c : String) (us : Users) (user0 : User)
    (hload : loadUsers st = .ok us)
    (hfind : alookup us i = some user0)
    (hnu : nu ≠ "")
    (hcid : o.saveCid = some c) (hc : c ≠ "")
    (htime : user0.CreatedAt < o.now) :
    EditUser cr o st i nu "" =
      (.ok (),
       { cid := c,
         store := (c, aset us i (renameStamp user0 nu o.now)) :: st.store }) ∧
    loadUsers
      { cid := c,
        store := (c, aset us i (renameStamp user0 nu o.now)) :: st.store } =
      .ok (aset us i (renameStamp user0 nu o.now)) ∧
    alookup (aset us i (renameStamp user0 nu o.now)) i =
      some (renameStamp user0 nu o.now) ∧
    (renameStamp user0 nu o.now).ID = user0.ID ∧
    (renameStamp user0 nu o.now).CreatedAt = user0.CreatedAt ∧
    (renameStamp user0 nu o.now).Password = user0.Password ∧
    (∀ pt, cr.verify (renameStamp user0 nu o.now).Password pt =
      cr.verify user0.Password pt) ∧
    (renameStamp user0 nu o.now).CreatedAt <
      (renameStamp user0 nu o.now).UpdatedAt ∧
    (∀ k, k ≠ i →
      alookup (aset us i (renameStamp user0 nu o.now)) k = alookup us k) := by
  have hbu : (nu == "") = false := by simp [hnu]
  refine ⟨?_, ?_, ?_, rfl, rfl, rfl, fun pt => rfl, ?_, ?_⟩
  · simp [EditUser, hload, hfind, hbu, saveUsers, hcid, renameStamp]
  · exact loadUsers_after_store_ne c (aset us i (renameStamp user0 nu o.now))
      st.store hc
  · exact alookup_aset_self us i (renameStamp user0 nu o.now)
  · simpa [renameStamp] using htime
  · exact fun k hk => alookup_aset_ne us i k (renameStamp user0 nu o.now) hk

/-- Witness for C6: renaming alice to alice2 on `stAlice`. -/
theorem C6_witness :
    EditUser cryptoModel ora2 stAlice "u1" "alice2" "" =
      (.ok (),
       { cid := "c2",
         store := [("c2", aset usAlice "u1" (renameStamp recAliceP1 "alice2" 2)), ("c1", usAlice)] }) ∧
    (renameStamp recAliceP1 "alice2" 2).ID = recAliceP1.ID ∧
    (renameStamp recAliceP1 "alice2" 2).Password = recAliceP1.Password ∧
    (renameStamp recAliceP1 "alice2" 2).CreatedAt <
      (renameStamp recAliceP1 "alice2" 2).UpdatedAt := by
  obtain ⟨h1, h2, h3, h4, h5, h6, h7, h8, h9⟩ :=
    C6_edit_username_frame cryptoModel ora2 stAlice "u1" "alice2" "c2"
      usAlice recAliceP1 rfl rfl (by decide) rfl (by decide) (by decide)
  exact ⟨h1, h4, h6, h8⟩

/-- C8: delete-then-read — for a snapshot containing a record at the given
id, DeleteUser succeeds and removes exactly that entry; afterwards a
second DeleteUser of the same id fails with the not-found error and
EditUser of that id fails with the not-found error for any arguments, both
leaving the state unchanged. -/
theorem C8_delete_then_read (o : Oracle) (st : IMState) (i c : String)
    (us : Users) (user0 : User)
    (hload : loadUsers st = .ok us)
    (hfind : alookup us i = some user0)
    (hcid : o.saveCid = some c) (hc : c ≠ "") :
    DeleteUser o st i =
      (.ok (), { cid := c, store := (c, aremove us i) :: st.store }) ∧
    loadUsers { cid := c, store := (c, aremove us i) :: st.store } =
      .ok (aremove us i) ∧
    alookup (aremove us i) i = none ∧
    (∀ k, k ≠ i → alookup (aremove us i) k = alookup us k) ∧
    (∀ o2, DeleteUser o2
        { cid := c, store := (c, aremove us i) :: st.store } i =
      (.error .userNotFound,
        { cid := c, store := (c, aremove us i) :: st.store })) ∧
    (∀ cr2 o2 nu np, EditUser cr2 o2
        { cid := c, store := (c, aremove us i) :: st.store } i nu np =
      (.error .userNotFound,
        { cid := c, store := (c, aremove us i) :: st.store })) := by
  have hload2 := loadUsers_after_store_ne c (aremove us i) st.store hc
  have hnone := alookup_aremove_self us i
  refine ⟨?_, hload2, hnone, ?_, ?_, ?_⟩
  · simp [DeleteUser, hload, hfind, saveUsers, hcid]
  · exact fun k hk => alookup_aremove_ne us i k hk
  · intro o2
    simp [DeleteUser, hload2, hnone]
  · intro cr2 o2 nu np
    simp [EditUser, hload2, hnone]

/-- Witness for C8: deleting alice from `stAlice`, then deleting and
editing the removed id again. -/
theorem C8_witness :
    DeleteUser ora2 stAlice "u1" = (.ok (), stDel) ∧
    DeleteUser ora3 stDel "u1" = (.error .userNotFound, stDel) ∧
    EditUser cryptoModel ora3 stDel "u1" "x" "y" =
      (.error .userNotFound, stDel) := by
  obtain ⟨h1, h2, h3, h4, h5, h6⟩ :=
    C8_delete_then_read ora2 stAlice "u1" "c2" usAlice recAliceP1
      rfl rfl rfl (by decide)
  exact ⟨h1, h5 ora3, h6 cryptoModel ora3 "x" "y"⟩

/-- AddUser is exactly the prepare phase followed by the store phase; in
the Go source no lock is held between the two phases (loadUsers RLocks and
unlocks internally, saveUsers Locks only around the cid assignment). -/
theorem AddUser_eq_phases (cr : Crypto) (o : Oracle) (st : IMState)
    (u p : String) :
    AddUser cr o st u p =
      match addUserPrepare cr o st u p with
      | .error e => (.error e, st)
      | .ok (id, vs) =>
        match saveUsers o st vs with
        | (.error e, st2) => (.error e, st2)
        | (.ok _, st2) => (.ok id, st2) := by
  cases hl : loadUsers st with
  | error e => simp [AddUser, addUserPrepare, hl]
  | ok users =>
    by_cases hany : users.any (fun q => q.2.Username == u) = true
    · simp [AddUser, addUserPrepare, hl, hany]
    · have hany2 := Bool.eq_false_iff.mpr hany
      cases hh : cr.hashPw p with
      | none => simp [AddUser, addUserPrepare, hl, hany2, hh]
      | some hp =>
        cases hs : o.saveCid with
        | none =>
          simp [AddUser, addUserPrepare, hl, hany2, hh, saveUsers, hs]
        | some c =>
          simp [AddUser, addUserPrepare, hl, hany2, hh, saveUsers, hs]

/-- C3 is false of the code: the lock is released between load and store,
so the schedule loadA, loadB, storeA, storeB of two concurrent
AddUser("alice", ·) calls is permitted; under it both callers pass the
duplicate check against the same stale snapshot and both stores succeed —
two successes — and B's store, built from the stale snapshot, silently
drops A's record. -/
theorem C3_interleaving_two_successes :
    addUserPrepare cryptoModel oraA IMState.initial "alice" "pA" =
      .ok ("uA", vsA) ∧
    addUserPrepare cryptoModel oraB IMState.initial "alice" "pB" =
      .ok ("uB", vsB) ∧
    saveUsers oraA IMState.initial vsA = (.ok (), stA) ∧
    saveUsers oraB stA vsB = (.ok (), stB) ∧
    loadUsers stB = .ok vsB ∧
    usernames vsB = ["alice"] ∧
    alookup vsB "uA" = none :=
  ⟨rfl, rfl, rfl, rfl, rfl, rfl, rfl⟩

/-- C7 is false as stated: AddUser performs no emptiness validation — on a
fresh manager both AddUser("", "secret") and AddUser("alice", "") succeed
and create a record. -/
theorem C7_counterexample :
    AddUser cryptoModel ora1 IMState.initial "" "secret" =
      (.ok "u1",
       { cid := "c1",
         store := [("c1", [("u1", { ID := "u1", Username := "", Password := "bc$secret", CreatedAt := 1, UpdatedAt := 1 })])] }) ∧
    AddUser cryptoModel ora1 IMState.initial "alice" "" =
      (.ok "u1",
       { cid := "c1",
         store := [("c1", [("u1", { ID := "u1", Username := "alice", Password := "bc$", CreatedAt := 1, UpdatedAt := 1 })])] }) :=
  ⟨rfl, rfl⟩

/-- C7 (amended): AddUser applies no emptiness check to its arguments —
even with an empty username or an empty plaintext, the call succeeds and
creates the record whenever the load, the duplicate scan, the hashing and
the store succeed. -/
theorem C7_no_emptiness_validation (cr : Crypto) (o : Oracle)
    (st : IMState) (u p hp c : String) (us : Users)
    (hempty : u = "" ∨ p = "")
    (hload : loadUsers st = .ok us)
    (hany : us.any (fun q => q.2.Username == u) = false)
    (hhash : cr.hashPw p = some hp)
    (hcid : o.saveCid = some c) :
    (AddUser cr o st u p).1 = .ok o.newId := by
  simp [AddUser, hload, hany, hhash, saveUsers, hcid]

/-- Witness for the amended C7: the empty username is accepted. -/
theorem C7_witness :
    (AddUser cryptoModel ora1 IMState.initial "" "secret").1 = .ok "u1" :=
  C7_no_emptiness_validation cryptoModel ora1 IMState.initial "" "secret"
    "bc$secret" "c1" [] (.inl rfl) rfl rfl rfl rfl

/-- C9: Login stops at the first record in scan order whose username
matches — in the snapshot `usDup`, reached by an EditUser rename, both
records carry username "alice"; Login("alice","p2") hits `recAliceP1`
first, whose verifier rejects "p2", and fails with the invalid-password
error even though the later record `recRenamed` would accept "p2". -/
theorem C9_login_first_match_only :
    EditUser cryptoModel ora3 stAliceBob "u2" "alice" "" =
      (.ok (), stRenamed) ∧
    loadUsers stRenamed = .ok usDup ∧
    usDup = [("u1", recAliceP1), ("u2", recRenamed)] ∧
    recAliceP1.Username = "alice" ∧ recRenamed.Username = "alice" ∧
    cryptoModel.verify recAliceP1.Password "p2" = false ∧
    cryptoModel.verify recRenamed.Password "p2" = true ∧
    Login cryptoModel stRenamed "alice" "p2" = .error .invalidPassword :=
  ⟨rfl, rfl, rfl, rfl, rfl, by decide, by decide, rfl⟩
